import Mathlib

/-
Verification of the goodNight (ZenWatch) pipeline: the git analyzer
(internal/git), the stats aggregator (internal/metrics) and the report
renderer (internal/report) are embedded shallowly; external collaborators
(go-git, the filesystem, Go's fmt and html/template) are modelled by
explicit inputs or by their documented and observed string behaviour.
-/

namespace ZenWatch

/- ===================== generic list kit ===================== -/

/-- Concatenation of the images of a list under a list-valued function. -/
def concatMap {α β : Type} (f : α → List β) : List α → List β
  | [] => []
  | a :: l => f a ++ concatMap f l

/-- Does the list `l` start with the segment `pat`? -/
def startsSeg {α : Type} [DecidableEq α] : List α → List α → Bool
  | [], _ => true
  | _ :: _, [] => false
  | p :: ps, c :: cs => if p = c then startsSeg ps cs else false

/-- Does the segment `pat` occur contiguously somewhere inside `l`? -/
def occursIn {α : Type} [DecidableEq α] : List α → List α → Bool
  | [], _ => true
  | _ :: _, [] => false
  | pat, c :: cs => startsSeg pat (c :: cs) || occursIn pat cs

/-- Concatenation of a list of strings, in order. -/
def strConcat : List String → String
  | [] => ""
  | s :: l => s ++ strConcat l

/-- `occursInStr pat s` holds when `pat` occurs contiguously inside `s`. -/
def occursInStr (pat s : String) : Bool := occursIn pat.data s.data

/- ===================== internal/git: data model ===================== -/

/-- CommitInfo from internal/git: information about a specific commit. -/
structure CommitInfo where
  Hash : String
  Message : String
  Author : String
  Email : String
  Date : String
deriving DecidableEq

/-- ChangedFileStats from internal/git: statistics for a single changed file.
Per the source comments, LinesAdded and LinesDeleted are currently 0 for
individual files. -/
structure ChangedFileStats where
  Path : String
  FileType : String
  LinesAdded : Int
  LinesDeleted : Int
deriving DecidableEq

/-- RepositoryInfo from internal/git: basic information about a repository
and its latest commit. -/
structure RepositoryInfo where
  URL : String
  TempPath : String
  LatestCommit : CommitInfo
  ChangedFiles : List ChangedFileStats
  TotalLinesAdded : Int
  TotalLinesDeleted : Int
deriving DecidableEq

/- ===================== external go-git provider model ===================== -/

/-- One entry of the go-git `commit.Stats()` result: a per-file stat with
addition and deletion counts. -/
structure GoFileStat where
  Name : String
  Addition : Int
  Deletion : Int
deriving DecidableEq

/-- One element of `patch.FilePatches()`: the pre-change and post-change
files.  `none` models a nil `from`/`to` pointer; `some p` models a non-nil
file whose `Path()` is `p` (which may itself be empty). -/
structure FilePatch where
  fromPath : Option String
  toPath : Option String
deriving DecidableEq

/-- The behaviour of `latestCommit.Parent(0)` and the calls made on it:
`parentTree.Patch(currentTree)` after `parentCommit.Tree()`. -/
structure GitParent where
  treeResult : Except String Unit
  patchResult : Except String (List FilePatch)

/-- The external go-git provider's view of the HEAD commit: its metadata
and the outcome of each fallible call the analyzer makes on it.
`emptyDiffResult`/`emptyPatchResult` model `object.DiffTree(nil, currentTree)`
followed by `changes.Patch()` (to diff the tree against an empty tree). -/
structure GitCommit where
  hash : String
  message : String
  authorName : String
  authorEmail : String
  authorWhen : String
  statsResult : Except String (List GoFileStat)
  treeResult : Except String Unit
  numParents : Nat
  parentResult : Except String GitParent
  emptyDiffResult : Except String Unit
  emptyPatchResult : Except String (List FilePatch)

/-- The external go-git provider's behaviour at one repository path:
the outcome of `git.PlainOpen`, `repo.Head()` and `repo.CommitObject`. -/
structure GitWorld where
  openResult : Except String Unit
  headResult : Except String Unit
  commitResult : Except String GitCommit

/- ===================== internal/git: CloneRepository ===================== -/

/-- A filesystem effect performed by CloneRepository: `os.MkdirTemp`
creating a directory or `os.RemoveAll` removing one. -/
inductive FsEvent where
  | created (path : String)
  | removed (path : String)
deriving DecidableEq

/-- The external world as seen by CloneRepository: the outcome of
`os.MkdirTemp` and of `git.PlainClone` (depth-1). -/
structure CloneWorld where
  mkdirTempResult : Except String String
  cloneResult : Except String Unit

/-- CloneRepository from internal/git, with its filesystem side effects made
explicit: the result is paired with the ordered list of directory
creations/removals it performed. -/
def CloneRepository (url : String) (w : CloneWorld) :
    Except String String × List FsEvent :=
  match w.mkdirTempResult with
  | .error e => (.error ("failed to create temp dir: " ++ e), [])
  | .ok tempDir =>
    match w.cloneResult with
    | .error e =>
      (.error ("failed to clone repository " ++ url ++ ": " ++ e),
        [FsEvent.created tempDir, FsEvent.removed tempDir])
    | .ok _ => (.ok tempDir, [FsEvent.created tempDir])

/- ===================== internal/git: AnalyzeLatestCommit ===================== -/

/-- Go's `filepath.Ext`, scanning the path backwards: the suffix starting at
the final dot in the final path element, or empty if there is none.
`extRev` receives the reversed character list and the suffix accumulated
so far (in original order). -/
def extRev : List Char → List Char → List Char
  | [], _ => []
  | c :: rest, acc =>
    if c = '/' then []
    else if c = '.' then c :: acc
    else extRev rest (c :: acc)

/-- Go's `filepath.Ext`. -/
def filepathExt (path : String) : String :=
  String.mk (extRev path.data.reverse [])

/-- Go's `strings.ToLower`, restricted to the ASCII range (the only range
exercised by this program's extensions). -/
def goToLower (s : String) : String :=
  String.mk (s.data.map Char.toLower)

/-- `strings.Split(s, sep)` for a single-character separator, returning the
head and tail of the split: `goSplitCharAux sep l = (first, rest)` where
`first :: rest` is the list of separated segments. -/
def goSplitCharAux (sep : Char) : List Char → List Char × List (List Char)
  | [] => ([], [])
  | c :: rest =>
    let p := goSplitCharAux sep rest
    if c = sep then ([], p.1 :: p.2) else (c :: p.1, p.2)

/-- `strings.Split(s, sep)[0]` for a single-character separator: the segment
before the first occurrence of `sep`, or all of `s` if `sep` is absent. -/
def goSplitFirst (s : String) (sep : Char) : String :=
  String.mk (goSplitCharAux sep s.data).1

/-- The path resolution of the changed-file loop: `to.Path()` when `to` is
non-nil, else `from.Path()` when `from` is non-nil (the file was deleted),
else the empty string. -/
def resolvePatchPath (fp : FilePatch) : String :=
  match fp.toPath with
  | some p => p
  | none =>
    match fp.fromPath with
    | some p => p
    | none => ""

/-- The changed-file loop over `patch.FilePatches()`: entries whose resolved
path is empty are skipped (the source's `continue`); all others produce a
ChangedFileStats record with zero per-file line counts.  (The source's
`if patch != nil` guard is always true on the paths that reach the loop,
since every successful branch assigns a non-nil patch.) -/
def changedStatsOfPatch (patch : List FilePatch) : List ChangedFileStats :=
  patch.filterMap (fun fp =>
    let filePath := resolvePatchPath fp
    if filePath = "" then none
    else some
      { Path := filePath
        FileType := goToLower (filepathExt filePath)
        LinesAdded := 0
        LinesDeleted := 0 })

/-- The patch-selection branch of AnalyzeLatestCommit: diff against the
empty tree when the commit has no parent, fall back to the empty tree when
the parent cannot be loaded, and otherwise diff parent tree against the
current tree. -/
def selectPatch (c : GitCommit) : Except String (List FilePatch) :=
  if c.numParents = 0 then
    match c.emptyDiffResult with
    | .error e => .error ("failed to diff initial commit tree: " ++ e)
    | .ok _ =>
      match c.emptyPatchResult with
      | .error e => .error ("failed to get patch from changes (initial commit): " ++ e)
      | .ok p => .ok p
  else
    match c.parentResult with
    | .error eParent =>
      match c.emptyDiffResult with
      | .error e =>
        .error ("failed to diff current tree with empty (parent fetch failed: "
          ++ eParent ++ "): " ++ e)
      | .ok _ =>
        match c.emptyPatchResult with
        | .error e => .error ("failed to get patch from changes (fallback to empty tree): " ++ e)
        | .ok p => .ok p
    | .ok parent =>
      match parent.treeResult with
      | .error e => .error ("failed to get parent commit tree: " ++ e)
      | .ok _ =>
        match parent.patchResult with
        | .error e => .error ("failed to create patch between parent and current tree: " ++ e)
        | .ok p => .ok p

/-- The commit-statistics sub-step: on `commit.Stats()` failure the totals
default to zero (soft-fail); on success the per-file additions and
deletions are summed. -/
def commitTotals (c : GitCommit) : Int × Int :=
  match c.statsResult with
  | .error _ => (0, 0)
  | .ok commitStats =>
    commitStats.foldl
      (fun acc fileStat => (acc.1 + fileStat.Addition, acc.2 + fileStat.Deletion))
      (0, 0)

/-- AnalyzeLatestCommit from internal/git, over the go-git provider model
`w`.  The commit-statistics sub-step tolerates failure (totals default to
zero); every other fallible sub-step aborts with an error. -/
def AnalyzeLatestCommit (repoPath : String) (w : GitWorld) :
    Except String RepositoryInfo :=
  match w.openResult with
  | .error e => .error ("failed to open repository at " ++ repoPath ++ ": " ++ e)
  | .ok _ =>
    match w.headResult with
    | .error e => .error ("failed to get HEAD reference: " ++ e)
    | .ok _ =>
      match w.commitResult with
      | .error e => .error ("failed to get latest commit object: " ++ e)
      | .ok latestCommit =>
        let commitInfo : CommitInfo :=
          { Hash := latestCommit.hash
            Message := goSplitFirst latestCommit.message '\n'
            Author := latestCommit.authorName
            Email := latestCommit.authorEmail
            Date := latestCommit.authorWhen }
        let totals : Int × Int := commitTotals latestCommit
        match latestCommit.treeResult with
        | .error e => .error ("failed to get commit tree: " ++ e)
        | .ok _ =>
          match selectPatch latestCommit with
          | .error e => .error e
          | .ok patch =>
            .ok { URL := ""
                  TempPath := repoPath
                  LatestCommit := commitInfo
                  ChangedFiles := changedStatsOfPatch patch
                  TotalLinesAdded := totals.1
                  TotalLinesDeleted := totals.2 }

/- ===================== internal/metrics: data model ===================== -/

/-- FileTypeStat from internal/metrics: an extension and the count of
changed files carrying it. -/
structure FileTypeStat where
  Extension : String
  Count : Int
deriving DecidableEq

/-- ComplexityStat from internal/metrics: one function flagged by the
(external) complexity analyzer. -/
structure ComplexityStat where
  Complexity : Int
  Package : String
  FunctionName : String
  File : String
  Line : Int
deriving DecidableEq

/-- OverallStats from internal/metrics.  Two modelling notes: the Go field
`FileStats` is a `map[string]*FileTypeStat`, modelled as an association
list whose order stands for the template engine's (sorted-key) iteration
order — no claim below depends on that order; the Go field
`AverageComplexity` is a float64 that reaches the report only through
`printf "%.2f"`, so it is modelled by that rendered string
(`AverageComplexityFmt`). -/
structure OverallStats where
  TotalLinesAdded : Int
  TotalLinesDeleted : Int
  FunctionsOverThreshold : Int
  AverageComplexityFmt : String
  FileStats : List (String × FileTypeStat)
  ComplexityStats : List ComplexityStat
deriving DecidableEq

/- ============ internal/metrics: StatsAggregator (spec-modelled) ============ -/

/-- Modelled from the spec: one step of the StatsAggregator's extension
histogram (spec section 4.2) — the per-extension counter is incremented, a new
zero-initialized entry being created the first time an extension is seen
(so its count becomes 1).  The aggregator's implementation is absent from
src; only the OverallStats declaration exists there. -/
def incrExt : List (String × FileTypeStat) → String → List (String × FileTypeStat)
  | [], e => [(e, { Extension := e, Count := 1 })]
  | (k, st) :: rest, e =>
    if k = e then (k, { st with Count := st.Count + 1 }) :: rest
    else (k, st) :: incrExt rest e

/-- Modelled from the spec: the StatsAggregator builds the extension
histogram by iterating the changed-file list once (spec section 4.2). -/
def aggregateFileStats (files : List ChangedFileStats) : List (String × FileTypeStat) :=
  files.foldl (fun m f => incrExt m f.FileType) []

/-- Lookup in the extension histogram (map access by key). -/
def lookupStat : List (String × FileTypeStat) → String → Option FileTypeStat
  | [], _ => none
  | (k, st) :: rest, e => if k = e then some st else lookupStat rest e

/- ===================== internal/report: data model ===================== -/

/-- ReportData from internal/report: all data for rendering the Markdown
report.  The Go `Commit` and `Stats` fields are pointers, assumed non-nil
(as in every call site); they are modelled as values. -/
structure ReportData where
  RepoURL : String
  ReportDate : String
  BadgeURL : String
  Commit : CommitInfo
  Stats : OverallStats
  ComplexityThreshold : Int
deriving DecidableEq

/- ============ html/template escaping (external, modelled) ============ -/

/-- The escaping Go's html/template applies to an interpolated value in
plain-text context: its `htmlEscaper` replacement table.  The repository's
own committed output (src/test_report_no_badge.md, author line rendered as
`Jules Verne &lt;jules@example.com>`) evidences that this escaper is
active for the report template. -/
def htmlEscapeChar (c : Char) : List Char :=
  if c = '<' then "&lt;".data
  else if c = '>' then "&gt;".data
  else if c = '&' then "&amp;".data
  else if c = '\x27' then "&#39;".data
  else if c = '\x22' then "&#34;".data
  else if c = '\x00' then "�".data
  else [c]

/-- html/template's escaping of a whole interpolated string value. -/
def htmlEscape (s : String) : String :=
  String.mk (concatMap htmlEscapeChar s.data)

/-- The five characters for which html/template substitutes an entity. -/
def htmlSpecialChars : List Char := ['<', '>', '&', '\x27', '\x22']

/- ===================== internal/report: GenerateBadgeURL ===================== -/

/-- Go's `strings.ReplaceAll` specialized to a single-character pattern:
every occurrence of `old` is replaced by `new`. -/
def replaceAllChar (s : String) (old : Char) (new : String) : String :=
  String.mk (concatMap (fun c => if c = old then new.data else [c]) s.data)

/-- GenerateBadgeURL from internal/report.  The float argument
`avgComplexity` reaches the URL only through `fmt.Sprintf "%.1f"`, so it is
modelled by that rendered string (`avgComplexityFmt`; for the float 18.0
Go renders `18.0`). -/
def GenerateBadgeURL (totalChangedLines : Int) (avgComplexityFmt : String) : String :=
  let label := "ZenWatch"
  let message := "changes " ++ toString totalChangedLines ++ " | avg complx " ++ avgComplexityFmt
  let color := "blue"
  let safeMessage := replaceAllChar message ' ' "%20"
  let safeMessage := replaceAllChar safeMessage '|' "%7C"
  "https://img.shields.io/badge/" ++ label ++ "-" ++ safeMessage ++ "-" ++ color

/-- The encoding the spec describes for the badge message: every space
percent-encoded as %20 and every pipe as %7C, all other characters kept. -/
def specBadgeEncode (s : String) : String :=
  String.mk (concatMap
    (fun c => if c = ' ' then "%20".data else if c = '|' then "%7C".data else [c]) s.data)

/- ============ internal/report: GenerateMarkdownReport ============ -/

/-- One row of the file-type-distribution table (`range` body over
`.Stats.FileStats`, with the trim marker consuming the newline after the
`range` action). -/
def fileTypeRow (p : String × FileTypeStat) : String :=
  "| " ++ htmlEscape p.1 ++ " | " ++ toString p.2.Count ++ " |\n"

/-- One row of the functions-over-threshold table (`range` body over
`.Stats.ComplexityStats`); spacing is byte-exact from the template. -/
def complexityRow (cs : ComplexityStat) : String :=
  "| " ++ toString cs.Complexity ++ " | " ++ htmlEscape cs.FunctionName ++
  "                     | " ++ htmlEscape cs.File ++ ":" ++ toString cs.Line ++
  " | " ++ htmlEscape cs.Package ++ "    |\n"

/-- The heading and table-header lines of the functions-over-threshold
table, byte-exact from the template. -/
def complexityTableHeader : String :=
  "### Functions Over Complexity Threshold\n| Complexity | Function                               | File:Line        | Package        |\n|------------|----------------------------------------|------------------|----------------|\n"

/-- The `if gt .Stats.FunctionsOverThreshold 0` section of the template:
the table when the count is positive, the fixed sentence otherwise. -/
def complexitySection (d : ReportData) : String :=
  if 0 < d.Stats.FunctionsOverThreshold then
    complexityTableHeader ++ strConcat (d.Stats.ComplexityStats.map complexityRow) ++ "\n"
  else
    "No functions found with cyclomatic complexity greater than " ++
      toString d.ComplexityThreshold ++ ".\n"

/-- The `if .BadgeURL` section of the template: empty when BadgeURL is the
empty string (Go template truthiness), otherwise the badge image line with
its surrounding newlines. -/
def badgeBlock (d : ReportData) : String :=
  if d.BadgeURL = "" then ""
  else "\n" ++ ("![ZenWatch Stats](" ++ htmlEscape d.BadgeURL ++ ")") ++ "\n"

/-- Everything the template emits before the complexity if-section, in
template order, split into chunks at each interpolation point.  Literal
template text passes through unchanged, except the lone `<` before the
email interpolation, which html/template rewrites to `&lt;` because it
cannot begin a tag (evidenced by src/test_report_no_badge.md); interpolated
values pass through `htmlEscape`; integers render with Go's decimal
formatting (escaping is the identity on them). -/
def reportChunks (d : ReportData) : List String :=
  ["\n# ZenWatch Analysis Report\n\n**Repository:** ",
   htmlEscape d.RepoURL,
   "\n**Analyzed At:** ",
   htmlEscape d.ReportDate,
   "\n\n",
   badgeBlock d,
   "\n\n## Latest Commit Analyzed\n- **Hash:** ",
   htmlEscape d.Commit.Hash,
   "\n",
   "- **Author:** ",
   htmlEscape d.Commit.Author,
   " &lt;",
   htmlEscape d.Commit.Email,
   ">",
   "\n- **Date:** ",
   htmlEscape d.Commit.Date,
   "\n- **Message:** ",
   htmlEscape d.Commit.Message,
   "\n\n## Code Statistics\n- **Total Lines Added:** ",
   toString d.Stats.TotalLinesAdded,
   "\n- **Total Lines Deleted:** ",
   toString d.Stats.TotalLinesDeleted,
   "\n  *Note: Line counts are overall for the commit. Per-file line counts were not available with current git analysis settings.*\n\n### File Type Distribution\n| Extension | Count |\n|-----------|-------|\n",
   strConcat (d.Stats.FileStats.map fileTypeRow),
   "\n\n## Cyclomatic Complexity Analysis (Threshold > ",
   toString d.ComplexityThreshold,
   ")\n- **Average Complexity (of functions over threshold):** ",
   htmlEscape d.Stats.AverageComplexityFmt,
   "\n- **Functions Over Threshold:** ",
   toString d.Stats.FunctionsOverThreshold,
   "\n\n"]

/-- The part of the report before the complexity if-section. -/
def reportMain (d : ReportData) : String :=
  strConcat (reportChunks d)

/-- GenerateMarkdownReport from internal/report: the string
`tmpl.Execute` writes for `data` (directory creation and file output are
filesystem concerns outside this model; on success the file holds exactly
this string). -/
def GenerateMarkdownReport (data : ReportData) : String :=
  reportMain data ++ complexitySection data ++ "\n"

def cloneWorldFixture : CloneWorld where
  mkdirTempResult := .ok "/tmp/zenwatch-clone-1"
  cloneResult := .error "repository not found"

/- ======= fixtures for the analyzer witnesses ======= -/

def commitFixture : GitCommit where
  hash := "6ecf0ef2c2dffb796033e5a02219af86ec6584e5"
  message := "add feature\n\nmore detail"
  authorName := "Max"
  authorEmail := "max@example.com"
  authorWhen := "2015-03-31 11:42:21 +0200"
  statsResult := .error "object not found"
  treeResult := .ok ()
  numParents := 1
  parentResult := .error "object not found"
  emptyDiffResult := .ok ()
  emptyPatchResult := .ok
    [ { fromPath := none, toPath := some "go/example.go" },
      { fromPath := some "old.txt", toPath := none },
      { fromPath := none, toPath := none } ]

def worldFixture : GitWorld where
  openResult := .ok ()
  headResult := .ok ()
  commitResult := .ok commitFixture

def infoFixture : RepositoryInfo where
  URL := ""
  TempPath := "/tmp/zenwatch-clone-1"
  LatestCommit :=
    { Hash := "6ecf0ef2c2dffb796033e5a02219af86ec6584e5"
      Message := "add feature"
      Author := "Max"
      Email := "max@example.com"
      Date := "2015-03-31 11:42:21 +0200" }
  ChangedFiles :=
    [ { Path := "go/example.go", FileType := ".go", LinesAdded := 0, LinesDeleted := 0 },
      { Path := "old.txt", FileType := ".txt", LinesAdded := 0, LinesDeleted := 0 } ]
  TotalLinesAdded := 0
  TotalLinesDeleted := 0

def fileFixtureGo : ChangedFileStats where
  Path := "go/example.go"
  FileType := ".go"
  LinesAdded := 0
  LinesDeleted := 0

def fileFixtureTxt : ChangedFileStats where
  Path := "old.txt"
  FileType := ".txt"
  LinesAdded := 0
  LinesDeleted := 0

def patchFixture : List FilePatch :=
  [ { fromPath := none, toPath := some "go/example.go" },
    { fromPath := some "old.txt", toPath := none },
    { fromPath := none, toPath := none } ]

/-- The ReportData string fields that the template interpolates for `d`
(the badge URL only when non-empty, the complexity-table fields only when
the table is rendered). -/
def interpStringFields (d : ReportData) : List String :=
  [d.RepoURL, d.ReportDate]
  ++ (if d.BadgeURL = "" then [] else [d.BadgeURL])
  ++ [d.Commit.Hash, d.Commit.Author, d.Commit.Email, d.Commit.Date, d.Commit.Message]
  ++ d.Stats.FileStats.map (fun p => p.1)
  ++ (if 0 < d.Stats.FunctionsOverThreshold then
        concatMap (fun cs => [cs.FunctionName, cs.File, cs.Package])
          d.Stats.ComplexityStats
      else [])

/- ============ fixtures for the report claims ============ -/

def commitSample : CommitInfo where
  Hash := "a1b2c3d4e5f6"
  Message := "feat: implement amazing new features"
  Author := "Jules Verne"
  Email := "jules@example.com"
  Date := "Wed, 04 Jun 2025 04:50:44 UTC"

def complexFuncStat : ComplexityStat where
  Complexity := 20
  Package := "main"
  FunctionName := "complexFunc"
  File := "main.go"
  Line := 42

def anotherComplexStat : ComplexityStat where
  Complexity := 16
  Package := "helper"
  FunctionName := "anotherComplex"
  File := "utils/helper.go"
  Line := 101

def statsSample : OverallStats where
  TotalLinesAdded := 150
  TotalLinesDeleted := 30
  FunctionsOverThreshold := 2
  AverageComplexityFmt := "18.00"
  FileStats :=
    [(".go", { Extension := ".go", Count := 5 }),
     (".md", { Extension := ".md", Count := 2 })]
  ComplexityStats := [complexFuncStat, anotherComplexStat]

def statsZero : OverallStats where
  TotalLinesAdded := 0
  TotalLinesDeleted := 0
  FunctionsOverThreshold := 0
  AverageComplexityFmt := "0.00"
  FileStats := []
  ComplexityStats := []

def reportSampleNoBadge : ReportData where
  RepoURL := "https://github.com/user/testrepo"
  ReportDate := "2025-06-04 04:50:44 UTC"
  BadgeURL := ""
  Commit := commitSample
  Stats := statsSample
  ComplexityThreshold := 15

def reportSampleBadge : ReportData :=
  { reportSampleNoBadge with
      BadgeURL :=
        "https://img.shields.io/badge/ZenWatch-changes%20180%20%7C%20avg%20complx%2018.0-blue" }

def reportZero : ReportData :=
  { reportSampleNoBadge with Stats := statsZero, ComplexityThreshold := 15 }

def commitTiny : CommitInfo where
  Hash := ""
  Message := ""
  Author := ""
  Email := ""
  Date := ""

def commitEsc : CommitInfo :=
  { commitTiny with Author := "Jules <Verne>" }

def reportBadBadge : ReportData where
  RepoURL := "u"
  ReportDate := "d"
  BadgeURL := "<badge>"
  Commit := commitTiny
  Stats := statsZero
  ComplexityThreshold := 0

def reportEscape : ReportData where
  RepoURL := "u"
  ReportDate := "d"
  BadgeURL := ""
  Commit := commitEsc
  Stats := statsZero
  ComplexityThreshold := 0

theorem concatMap_append {α β : Type} (f : α → List β) (l m : List α) :
    concatMap f (l ++ m) = concatMap f l ++ concatMap f m := by
  induction l with
  | nil => rfl
  | cons a l ih => simp [concatMap, ih]

theorem concatMap_congr {α β : Type} {f g : α → List β} (l : List α)
    (h : ∀ a ∈ l, f a = g a) : concatMap f l = concatMap g l := by
  induction l with
  | nil => rfl
  | cons a l ih =>
    simp only [concatMap]
    rw [h a (List.mem_cons_self a l), ih (fun b hb => h b (List.mem_cons_of_mem a hb))]

theorem concatMap_concatMap {α β γ : Type} (f : α → List β) (g : β → List γ)
    (l : List α) :
    concatMap g (concatMap f l) = concatMap (fun a => concatMap g (f a)) l := by
  induction l with
  | nil => rfl
  | cons a l ih => simp [concatMap, concatMap_append, ih]

theorem startsSeg_append {α : Type} [DecidableEq α] (pat rest : List α) :
    startsSeg pat (pat ++ rest) = true := by
  induction pat with
  | nil => rfl
  | cons p ps ih => simp [startsSeg, ih]

theorem startsSeg_exists {α : Type} [DecidableEq α] {pat l : List α}
    (h : startsSeg pat l = true) : ∃ t, l = pat ++ t := by
  induction pat generalizing l with
  | nil => exact ⟨l, rfl⟩
  | cons p ps ih =>
    cases l with
    | nil => simp [startsSeg] at h
    | cons c cs =>
      simp only [startsSeg] at h
      by_cases hpc : p = c
      · rw [if_pos hpc] at h
        obtain ⟨t, ht⟩ := ih h
        exact ⟨t, by rw [hpc, ht]; rfl⟩
      · rw [if_neg hpc] at h
        exact absurd h (by simp)

theorem occursIn_nil_pat {α : Type} [DecidableEq α] (l : List α) :
    occursIn ([] : List α) l = true := by
  cases l <;> rfl

theorem occursIn_of_startsSeg {α : Type} [DecidableEq α] {pat l : List α}
    (h : startsSeg pat l = true) : occursIn pat l = true := by
  cases pat with
  | nil => exact occursIn_nil_pat l
  | cons p ps =>
    cases l with
    | nil => simp [startsSeg] at h
    | cons c cs => simp [occursIn, h]

theorem occursIn_cons {α : Type} [DecidableEq α] {pat l : List α} (c : α)
    (h : occursIn pat l = true) : occursIn pat (c :: l) = true := by
  cases pat with
  | nil => rfl
  | cons p ps => simp [occursIn, h]

theorem occursIn_append_self {α : Type} [DecidableEq α] (pat rest : List α) :
    occursIn pat (pat ++ rest) = true :=
  occursIn_of_startsSeg (startsSeg_append pat rest)

theorem occursIn_exists {α : Type} [DecidableEq α] {pat l : List α} :
    occursIn pat l = true ↔ ∃ p q, l = p ++ pat ++ q := by
  constructor
  · intro h
    induction l with
    | nil =>
      cases pat with
      | nil => exact ⟨[], [], rfl⟩
      | cons p ps => simp [occursIn] at h
    | cons c cs ih =>
      cases pat with
      | nil => exact ⟨[], c :: cs, rfl⟩
      | cons p ps =>
        simp only [occursIn, Bool.or_eq_true] at h
        rcases h with h | h
        · obtain ⟨t, ht⟩ := startsSeg_exists h
          exact ⟨[], t, by simp [ht]⟩
        · obtain ⟨x, y, hxy⟩ := ih h
          exact ⟨c :: x, y, by simp [hxy]⟩
  · rintro ⟨p, q, rfl⟩
    induction p with
    | nil => simpa using occursIn_append_self pat q
    | cons c cs ih => exact occursIn_cons c ih

theorem occursIn_trans {α : Type} [DecidableEq α] {a b c : List α}
    (h1 : occursIn a b = true) (h2 : occursIn b c = true) :
    occursIn a c = true := by
  obtain ⟨p, q, hb⟩ := occursIn_exists.mp h1
  obtain ⟨r, s, hc⟩ := occursIn_exists.mp h2
  refine occursIn_exists.mpr ⟨r ++ p, q ++ s, ?_⟩
  rw [hc, hb]
  simp

theorem mem_of_occursIn {α : Type} [DecidableEq α] {pat l : List α}
    (h : occursIn pat l = true) {x : α} (hx : x ∈ pat) : x ∈ l := by
  obtain ⟨p, q, rfl⟩ := occursIn_exists.mp h
  simp [hx]

/- ===================== string kit ===================== -/

theorem strData_mk (l : List Char) : (String.mk l).data = l := rfl

theorem strData_append (s t : String) : (s ++ t).data = s.data ++ t.data := by
  cases s; cases t; rfl

theorem strExt {s t : String} (h : s.data = t.data) : s = t := by
  cases s; cases t; exact congrArg String.mk h

theorem strData_empty : ("" : String).data = [] := rfl

theorem strAppend_empty (s : String) : s ++ "" = s :=
  strExt (by simp [strData_append, strData_empty])

theorem strEmpty_append (s : String) : "" ++ s = s :=
  strExt (by simp [strData_append, strData_empty])

theorem strConcat_append (l m : List String) :
    strConcat (l ++ m) = strConcat l ++ strConcat m := by
  induction l with
  | nil => exact (strEmpty_append (strConcat m)).symm
  | cons s l ih =>
    show s ++ strConcat (l ++ m) = s ++ strConcat l ++ strConcat m
    rw [ih]
    exact strExt (by simp [strData_append])

theorem occursInStr_exists {pat s : String} :
    occursInStr pat s = true ↔ ∃ p q, s = p ++ pat ++ q := by
  constructor
  · intro h
    obtain ⟨p, q, hpq⟩ := occursIn_exists.mp h
    exact ⟨String.mk p, String.mk q, strExt (by simp [strData_append, strData_mk, hpq])⟩
  · rintro ⟨p, q, rfl⟩
    exact occursIn_exists.mpr ⟨p.data, q.data, by simp [strData_append]⟩

theorem occursInStr_self (x : String) : occursInStr x x = true :=
  occursInStr_exists.mpr ⟨"", "", strExt (by simp [strData_append])⟩

theorem occursInStr_extR {x s : String} (h : occursInStr x s = true) (t : String) :
    occursInStr x (s ++ t) = true := by
  obtain ⟨p, q, rfl⟩ := occursInStr_exists.mp h
  exact occursInStr_exists.mpr ⟨p, q ++ t, strExt (by simp [strData_append])⟩

theorem occursInStr_extL {x t : String} (h : occursInStr x t = true) (s : String) :
    occursInStr x (s ++ t) = true := by
  obtain ⟨p, q, rfl⟩ := occursInStr_exists.mp h
  exact occursInStr_exists.mpr ⟨s ++ p, q, strExt (by simp [strData_append])⟩

theorem occursInStr_right (x s : String) : occursInStr x (s ++ x) = true :=
  occursInStr_extL (occursInStr_self x) s

theorem occursInStr_left (x t : String) : occursInStr x (x ++ t) = true :=
  occursInStr_extR (occursInStr_self x) t

theorem occursInStr_trans {a b c : String} (h1 : occursInStr a b = true)
    (h2 : occursInStr b c = true) : occursInStr a c = true :=
  occursIn_trans h1 h2

/-- A string occurs in the concatenation of any list it belongs to. -/
theorem occursInStr_strConcat_of_mem {x : String} {l : List String} (h : x ∈ l) :
    occursInStr x (strConcat l) = true := by
  induction l with
  | nil => cases h
  | cons s l ih =>
    rcases List.mem_cons.mp h with rfl | h
    · exact occursInStr_left x (strConcat l)
    · exact occursInStr_extL (ih h) s

/-- Anything occurring in one element occurs in the whole concatenation. -/
theorem occursInStr_strConcat_of_mem_piece {x s : String} {l : List String}
    (hs : s ∈ l) (hx : occursInStr x s = true) :
    occursInStr x (strConcat l) = true :=
  occursInStr_trans hx (occursInStr_strConcat_of_mem hs)

/- ===================== claim C1 ===================== -/

theorem badgeEncode_step (c : Char) :
    concatMap (fun x => if x = '|' then "%7C".data else [x])
      (if c = ' ' then "%20".data else [c]) =
    (if c = ' ' then "%20".data else if c = '|' then "%7C".data else [c]) := by
  by_cases hc : c = ' '
  · subst hc; decide
  · rw [if_neg hc, if_neg hc]
    by_cases hp : c = '|'
    · subst hp; decide
    · rw [if_neg hp]
      show concatMap _ [c] = [c]
      simp [concatMap, if_neg hp]

theorem badge_replace_eq (s : String) :
    replaceAllChar (replaceAllChar s ' ' "%20") '|' "%7C" = specBadgeEncode s := by
  apply strExt
  simp only [replaceAllChar, specBadgeEncode, strData_mk]
  rw [concatMap_concatMap]
  exact concatMap_congr s.data (fun c _ => badgeEncode_step c)

/-- C1: GenerateBadgeURL returns a URL whose message segment is the string
"changes n | avg complx a" (with the integer rendered in decimal and the
float rendered by Go to one decimal place) in which every space is encoded
as %20 and the pipe as %7C, between the fixed label "ZenWatch" and the
fixed color "blue"; in particular for 150 and 18.0 the message segment is
exactly changes%20150%20%7C%20avg%20complx%2018.0. -/
theorem C1_generateBadgeURL :
    (∀ (n : Int) (aFmt : String),
      GenerateBadgeURL n aFmt =
        "https://img.shields.io/badge/" ++ "ZenWatch" ++ "-" ++
          specBadgeEncode ("changes " ++ toString n ++ " | avg complx " ++ aFmt) ++
          "-" ++ "blue")
    ∧ GenerateBadgeURL 150 "18.0" =
        "https://img.shields.io/badge/ZenWatch-changes%20150%20%7C%20avg%20complx%2018.0-blue" := by
  constructor
  · intro n aFmt
    show "https://img.shields.io/badge/" ++ "ZenWatch" ++ "-" ++
        replaceAllChar
          (replaceAllChar ("changes " ++ toString n ++ " | avg complx " ++ aFmt) ' ' "%20")
          '|' "%7C" ++ "-" ++ "blue" = _
    rw [badge_replace_eq]
  · decide

/- ===================== claim C9 ===================== -/

/-- C9: if CloneRepository creates its temporary directory and the clone
then fails, it removes that directory before returning the error: every
directory it created is also removed on this error path. -/
theorem C9_clone_cleanup (url : String) (w : CloneWorld) (tempDir e : String)
    (hmk : w.mkdirTempResult = .ok tempDir) (hcl : w.cloneResult = .error e) :
    (CloneRepository url w).1 =
        .error ("failed to clone repository " ++ url ++ ": " ++ e)
    ∧ (CloneRepository url w).2 = [FsEvent.created tempDir, FsEvent.removed tempDir]
    ∧ ∀ p, FsEvent.created p ∈ (CloneRepository url w).2 →
        FsEvent.removed p ∈ (CloneRepository url w).2 := by
  refine ⟨by simp [CloneRepository, hmk, hcl], by simp [CloneRepository, hmk, hcl], ?_⟩
  intro p hp
  simp [CloneRepository, hmk, hcl] at hp ⊢
  exact hp

theorem C9_witness :
    (CloneRepository "https://example.com/r.git" cloneWorldFixture).1 =
        .error ("failed to clone repository " ++ "https://example.com/r.git" ++ ": " ++
          "repository not found")
    ∧ (CloneRepository "https://example.com/r.git" cloneWorldFixture).2 =
        [FsEvent.created "/tmp/zenwatch-clone-1", FsEvent.removed "/tmp/zenwatch-clone-1"]
    ∧ FsEvent.removed "/tmp/zenwatch-clone-1" ∈
        (CloneRepository "https://example.com/r.git" cloneWorldFixture).2 := by
  have h := C9_clone_cleanup "https://example.com/r.git" cloneWorldFixture
    "/tmp/zenwatch-clone-1" "repository not found" rfl rfl
  exact ⟨h.1, h.2.1, h.2.2 "/tmp/zenwatch-clone-1" (by rw [h.2.1]; decide)⟩

/- ===================== claims C2-C5: analyzer lemmas ===================== -/

theorem mem_changedStatsOfPatch {patch : List FilePatch} {f : ChangedFileStats}
    (hf : f ∈ changedStatsOfPatch patch) :
    f.Path ≠ "" ∧ f.LinesAdded = 0 ∧ f.LinesDeleted = 0 := by
  simp only [changedStatsOfPatch, List.mem_filterMap] at hf
  obtain ⟨fp, _, hfp⟩ := hf
  by_cases hp : resolvePatchPath fp = ""
  · rw [if_pos hp] at hfp
    cases hfp
  · rw [if_neg hp] at hfp
    cases hfp
    exact ⟨hp, rfl, rfl⟩

theorem changedStatsOfPatch_eq (patch : List FilePatch) :
    changedStatsOfPatch patch =
      (patch.filter (fun fp => resolvePatchPath fp != "")).map
        (fun fp =>
          { Path := resolvePatchPath fp
            FileType := goToLower (filepathExt (resolvePatchPath fp))
            LinesAdded := 0
            LinesDeleted := 0 }) := by
  induction patch with
  | nil => rfl
  | cons fp rest ih =>
    simp only [changedStatsOfPatch] at ih ⊢
    by_cases hp : resolvePatchPath fp = ""
    · simp [List.filterMap_cons, List.filter_cons, hp, ih]
    · simp [List.filterMap_cons, List.filter_cons, hp, ih]

theorem goSplitCharAux_fst (sep : Char) (l : List Char) :
    (goSplitCharAux sep l).1 = l.takeWhile (fun c => c != sep) := by
  induction l with
  | nil => rfl
  | cons c rest ih =>
    simp only [goSplitCharAux, List.takeWhile_cons]
    by_cases hc : c = sep
    · simp [hc]
    · simp [hc, ih]

theorem goSplitFirst_eq (s : String) (sep : Char) :
    goSplitFirst s sep = String.mk (s.data.takeWhile (fun c => c != sep)) :=
  congrArg String.mk (goSplitCharAux_fst sep s.data)

/-- Inversion of a successful analysis: the world reached the commit, the
patch selection succeeded, and the result record is determined by them. -/
theorem analyze_ok_inversion {repoPath : String} {w : GitWorld} {info : RepositoryInfo}
    (h : AnalyzeLatestCommit repoPath w = .ok info) :
    ∃ c patch, w.commitResult = .ok c ∧ selectPatch c = .ok patch ∧
      info =
        { URL := ""
          TempPath := repoPath
          LatestCommit :=
            { Hash := c.hash
              Message := goSplitFirst c.message '\n'
              Author := c.authorName
              Email := c.authorEmail
              Date := c.authorWhen }
          ChangedFiles := changedStatsOfPatch patch
          TotalLinesAdded := (commitTotals c).1
          TotalLinesDeleted := (commitTotals c).2 } := by
  unfold AnalyzeLatestCommit at h
  cases ho : w.openResult with
  | error e => simp [ho] at h
  | ok u =>
    cases hh : w.headResult with
    | error e => simp [ho, hh] at h
    | ok u2 =>
      cases hc : w.commitResult with
      | error e => simp [ho, hh, hc] at h
      | ok c =>
        cases ht : c.treeResult with
        | error e => simp [ho, hh, hc, ht] at h
        | ok u3 =>
          cases hp : selectPatch c with
          | error e => simp [ho, hh, hc, ht, hp] at h
          | ok patch =>
            simp only [ho, hh, hc, ht, hp] at h
            exact ⟨c, patch, rfl, hp, (Except.ok.inj h).symm⟩

/-- C2: every ChangedFileStats entry in a successful analysis has
LinesAdded = 0 and LinesDeleted = 0. -/
theorem C2_per_file_lines_zero (repoPath : String) (w : GitWorld)
    (info : RepositoryInfo) (f : ChangedFileStats)
    (h : AnalyzeLatestCommit repoPath w = .ok info) (hf : f ∈ info.ChangedFiles) :
    f.LinesAdded = 0 ∧ f.LinesDeleted = 0 := by
  obtain ⟨c, patch, hc, hp, hinfo⟩ := analyze_ok_inversion h
  subst hinfo
  exact (mem_changedStatsOfPatch hf).2

/-- C3: if the commit-statistics sub-step fails, the analysis does not
fail for that reason: the totals are both zero on success, and the entire
result coincides with the analysis of the same world in which the
statistics call succeeded with an empty list. -/
theorem C3_stats_soft_fail (repoPath : String) (w : GitWorld) (c : GitCommit)
    (e : String) (hc : w.commitResult = .ok c) (hs : c.statsResult = .error e) :
    (∀ info, AnalyzeLatestCommit repoPath w = .ok info →
        info.TotalLinesAdded = 0 ∧ info.TotalLinesDeleted = 0)
    ∧ AnalyzeLatestCommit repoPath w =
        AnalyzeLatestCommit repoPath
          { w with commitResult := .ok { c with statsResult := .ok [] } } := by
  constructor
  · intro info h
    obtain ⟨c2, patch, hc2, hp, hinfo⟩ := analyze_ok_inversion h
    rw [hc] at hc2
    cases Except.ok.inj hc2
    subst hinfo
    simp [commitTotals, hs]
  · have hts : commitTotals c = commitTotals { c with statsResult := .ok [] } := by
      simp [commitTotals, hs]
    unfold AnalyzeLatestCommit
    simp only [hc]
    rw [hts]
    rfl

/-- C4: the Message of the returned CommitInfo is exactly the first line of
the commit message: the characters before the first line break, or the
whole message when there is none. -/
theorem C4_message_first_line (repoPath : String) (w : GitWorld) (c : GitCommit)
    (info : RepositoryInfo) (hc : w.commitResult = .ok c)
    (h : AnalyzeLatestCommit repoPath w = .ok info) :
    info.LatestCommit.Message =
      String.mk (c.message.data.takeWhile (fun ch => ch != '\n')) := by
  obtain ⟨c2, patch, hc2, hp, hinfo⟩ := analyze_ok_inversion h
  rw [hc] at hc2
  cases Except.ok.inj hc2
  subst hinfo
  exact goSplitFirst_eq c.message '\n'

/-- C5: every emitted ChangedFileStats has a non-empty Path, and the
changed-file list is exactly the per-entry resolution (post-change path
preferred, pre-change path for deletions) restricted to entries whose
resolved path is non-empty - entries yielding neither path are skipped. -/
theorem C5_paths_resolved (repoPath : String) (w : GitWorld)
    (info : RepositoryInfo) (f : ChangedFileStats)
    (h : AnalyzeLatestCommit repoPath w = .ok info) (hf : f ∈ info.ChangedFiles) :
    f.Path ≠ ""
    ∧ ∀ patch : List FilePatch,
        changedStatsOfPatch patch =
          (patch.filter (fun fp => resolvePatchPath fp != "")).map
            (fun fp =>
              { Path := resolvePatchPath fp
                FileType := goToLower (filepathExt (resolvePatchPath fp))
                LinesAdded := 0
                LinesDeleted := 0 }) := by
  obtain ⟨c, patch, hc, hp, hinfo⟩ := analyze_ok_inversion h
  subst hinfo
  exact ⟨(mem_changedStatsOfPatch hf).1, changedStatsOfPatch_eq⟩

theorem analyzeFixture_eq :
    AnalyzeLatestCommit "/tmp/zenwatch-clone-1" worldFixture = .ok infoFixture := rfl

theorem C2_witness :
    fileFixtureGo.LinesAdded = 0 ∧ fileFixtureGo.LinesDeleted = 0 :=
  C2_per_file_lines_zero "/tmp/zenwatch-clone-1" worldFixture infoFixture
    fileFixtureGo analyzeFixture_eq (by decide)

theorem C3_witness :
    (infoFixture.TotalLinesAdded = 0 ∧ infoFixture.TotalLinesDeleted = 0)
    ∧ AnalyzeLatestCommit "/tmp/zenwatch-clone-1" worldFixture =
        AnalyzeLatestCommit "/tmp/zenwatch-clone-1"
          { worldFixture with
              commitResult := .ok { commitFixture with statsResult := .ok [] } } :=
  have h := C3_stats_soft_fail "/tmp/zenwatch-clone-1" worldFixture commitFixture
    "object not found" rfl rfl
  ⟨h.1 infoFixture analyzeFixture_eq, h.2⟩

theorem C4_witness :
    infoFixture.LatestCommit.Message =
      String.mk (commitFixture.message.data.takeWhile (fun ch => ch != '\n')) :=
  C4_message_first_line "/tmp/zenwatch-clone-1" worldFixture commitFixture
    infoFixture rfl analyzeFixture_eq

theorem C5_witness :
    fileFixtureTxt.Path ≠ ""
    ∧ changedStatsOfPatch patchFixture =
      (patchFixture.filter (fun fp => resolvePatchPath fp != "")).map
        (fun fp =>
          { Path := resolvePatchPath fp
            FileType := goToLower (filepathExt (resolvePatchPath fp))
            LinesAdded := 0
            LinesDeleted := 0 }) :=
  have h := C5_paths_resolved "/tmp/zenwatch-clone-1" worldFixture infoFixture
    fileFixtureTxt analyzeFixture_eq (by decide)
  ⟨h.1, h.2 patchFixture⟩

/- ===================== claim C8 ===================== -/

theorem lookupStat_incrExt (m : List (String × FileTypeStat)) (e k : String) :
    lookupStat (incrExt m e) k =
      if e = k then
        match lookupStat m k with
        | none => some { Extension := k, Count := 1 }
        | some st => some { st with Count := st.Count + 1 }
      else lookupStat m k := by
  induction m with
  | nil =>
    by_cases he : e = k
    · subst he; simp [incrExt, lookupStat]
    · simp [incrExt, lookupStat, he]
  | cons p rest ih =>
    obtain ⟨k2, st⟩ := p
    by_cases h1 : k2 = e
    · subst h1
      by_cases h2 : k2 = k
      · subst h2
        simp [incrExt, lookupStat]
      · simp [incrExt, lookupStat, h2]
    · by_cases h2 : k2 = k
      · subst h2
        have hek : ¬ e = k2 := fun h => h1 h.symm
        simp [incrExt, lookupStat, h1, hek]
      · simp [incrExt, lookupStat, h1, h2, ih]

theorem lookupStat_agg_loop (files : List ChangedFileStats)
    (m : List (String × FileTypeStat)) (e : String) :
    lookupStat (files.foldl (fun acc f => incrExt acc f.FileType) m) e =
      (match lookupStat m e with
       | some st =>
         some { st with
                  Count := st.Count + (files.countP (fun f => f.FileType == e) : Int) }
       | none =>
         if files.countP (fun f => f.FileType == e) = 0 then none
         else some { Extension := e
                     Count := (files.countP (fun f => f.FileType == e) : Int) }) := by
  induction files generalizing m with
  | nil =>
    cases hm : lookupStat m e with
    | none => simp [hm]
    | some st => simp [hm]
  | cons f fs ih =>
    rw [List.foldl_cons, ih, lookupStat_incrExt]
    by_cases hf : f.FileType = e
    · rw [if_pos hf]
      have hcnt : (f :: fs).countP (fun g => g.FileType == e) =
          fs.countP (fun g => g.FileType == e) + 1 := by
        rw [List.countP_cons]
        simp [hf]
      rw [hcnt]
      cases hm : lookupStat m e with
      | none =>
        have h1 : ¬ (fs.countP (fun g => g.FileType == e) + 1 = 0) :=
          Nat.succ_ne_zero _
        simp only [hm, if_neg h1, Option.some.injEq, FileTypeStat.mk.injEq, true_and]
        push_cast
        ring
      | some st =>
        simp only [hm]
        simp only [Option.some.injEq, FileTypeStat.mk.injEq, true_and]
        push_cast
        ring
    · rw [if_neg hf]
      have hcnt : (f :: fs).countP (fun g => g.FileType == e) =
          fs.countP (fun g => g.FileType == e) := by
        rw [List.countP_cons]
        simp [hf]
      rw [hcnt]

/-- C8: the StatsAggregator's extension histogram gives every extension a
count equal to the number of changed files carrying it (one pass,
zero-initialized entry created on first sight then incremented), and for
the changed-file list a.go, b.go, README the resulting map contains .go
with count 2 and the empty extension with count 1. -/
theorem C8_file_histogram :
    (∀ (files : List ChangedFileStats) (e : String),
      lookupStat (aggregateFileStats files) e =
        (if files.countP (fun f => f.FileType == e) = 0 then none
         else some { Extension := e
                     Count := (files.countP (fun f => f.FileType == e) : Int) }))
    ∧ lookupStat
        (aggregateFileStats
          (["a.go", "b.go", "README"].map
            (fun p =>
              { Path := p
                FileType := goToLower (filepathExt p)
                LinesAdded := 0
                LinesDeleted := 0 }))) ".go" =
        some { Extension := ".go", Count := 2 }
    ∧ lookupStat
        (aggregateFileStats
          (["a.go", "b.go", "README"].map
            (fun p =>
              { Path := p
                FileType := goToLower (filepathExt p)
                LinesAdded := 0
                LinesDeleted := 0 }))) "" =
        some { Extension := "", Count := 1 } := by
  refine ⟨?_, by decide, by decide⟩
  intro files e
  have h := lookupStat_agg_loop files [] e
  simpa [lookupStat, aggregateFileStats] using h

/- ============ report rendering: helper lemmas ============ -/

theorem strAppend_assoc (a b c : String) : a ++ b ++ c = a ++ (b ++ c) :=
  strExt (by simp [strData_append, List.append_assoc])

theorem occursInStr_strConcat_mid (p mid q : List String) :
    occursInStr (strConcat mid) (strConcat (p ++ mid ++ q)) = true := by
  rw [strConcat_append, strConcat_append]
  exact occursInStr_exists.mpr ⟨strConcat p, strConcat q, rfl⟩

/-- Any chunk of the template occurs in the rendered report. -/
theorem chunk_in_render {d : ReportData} {x : String} (hx : x ∈ reportChunks d) :
    occursInStr x (GenerateMarkdownReport d) = true :=
  occursInStr_extR (occursInStr_extR (occursInStr_strConcat_of_mem hx)
    (complexitySection d)) "\n"

/-- Anything occurring inside a chunk occurs in the rendered report. -/
theorem piece_in_render {d : ReportData} {x p : String}
    (hx : occursInStr x p = true) (hp : p ∈ reportChunks d) :
    occursInStr x (GenerateMarkdownReport d) = true :=
  occursInStr_trans hx (chunk_in_render hp)

/-- Anything occurring in the complexity section occurs in the report. -/
theorem section_in_render {d : ReportData} {x : String}
    (h : occursInStr x (complexitySection d) = true) :
    occursInStr x (GenerateMarkdownReport d) = true :=
  occursInStr_extR (occursInStr_extL h (reportMain d)) "\n"

theorem mem_concatMap {α β : Type} {f : α → List β} {l : List α} {b : β} :
    b ∈ concatMap f l ↔ ∃ a, a ∈ l ∧ b ∈ f a := by
  induction l with
  | nil => simp [concatMap]
  | cons a l ih => simp [concatMap, ih]

theorem htmlEscapeChar_no_raw (c : Char) :
    ∀ x ∈ htmlEscapeChar c, x ≠ '<' ∧ x ≠ '>' ∧ x ≠ '\x22' ∧ x ≠ '\x27' := by
  unfold htmlEscapeChar
  by_cases h1 : c = '<'
  · rw [if_pos h1]; decide
  · rw [if_neg h1]
    by_cases h2 : c = '>'
    · rw [if_pos h2]; decide
    · rw [if_neg h2]
      by_cases h3 : c = '&'
      · rw [if_pos h3]; decide
      · rw [if_neg h3]
        by_cases h4 : c = '\x27'
        · rw [if_pos h4]; decide
        · rw [if_neg h4]
          by_cases h5 : c = '\x22'
          · rw [if_pos h5]; decide
          · rw [if_neg h5]
            by_cases h6 : c = '\x00'
            · rw [if_pos h6]; decide
            · rw [if_neg h6]
              intro x hx
              rw [List.mem_singleton] at hx
              subst hx
              exact ⟨h1, h2, h5, h4⟩

/-- The escaped form of a string contains no raw angle bracket or quote. -/
theorem htmlEscape_no_raw (s : String) :
    ∀ c ∈ (htmlEscape s).data, c ≠ '<' ∧ c ≠ '>' ∧ c ≠ '\x22' ∧ c ≠ '\x27' := by
  intro c hc
  have hc2 : c ∈ concatMap htmlEscapeChar s.data := hc
  obtain ⟨a, _, hb⟩ := mem_concatMap.mp hc2
  exact htmlEscapeChar_no_raw a c hb

/-- The entity block of any character of `s` occurs in the escape of `s`. -/
theorem entity_in_escape {s : String} {c : Char} (hc : c ∈ s.data) :
    occursInStr (String.mk (htmlEscapeChar c)) (htmlEscape s) = true := by
  obtain ⟨p, q, hpq⟩ := List.append_of_mem hc
  show occursIn (htmlEscapeChar c) (concatMap htmlEscapeChar s.data) = true
  rw [hpq, concatMap_append]
  refine occursIn_exists.mpr
    ⟨concatMap htmlEscapeChar p, concatMap htmlEscapeChar q, ?_⟩
  simp [concatMap, List.append_assoc]

theorem concatMap_htmlEscapeChar_id {l : List Char}
    (h : ∀ c ∈ l, c ∉ htmlSpecialChars ∧ c ≠ '\x00') :
    concatMap htmlEscapeChar l = l := by
  induction l with
  | nil => rfl
  | cons c rest ih =>
    have hc := h c (List.mem_cons_self c rest)
    have hs := hc.1
    simp only [htmlSpecialChars, List.mem_cons, List.not_mem_nil, or_false,
      not_or] at hs
    have h1 : htmlEscapeChar c = [c] := by
      unfold htmlEscapeChar
      rw [if_neg hs.1, if_neg hs.2.1, if_neg hs.2.2.1, if_neg hs.2.2.2.1,
        if_neg hs.2.2.2.2, if_neg hc.2]
    simp [concatMap, h1, ih (fun x hx => h x (List.mem_cons_of_mem c hx))]

/-- Escaping is the identity on strings with no HTML-special character. -/
theorem htmlEscape_id {s : String}
    (h : ∀ c ∈ s.data, c ∉ htmlSpecialChars ∧ c ≠ '\x00') :
    htmlEscape s = s :=
  strExt (concatMap_htmlEscapeChar_id h)

/-- The escape of every interpolated string field occurs in the report. -/
theorem field_in_render {d : ReportData} {s : String}
    (hs : s ∈ interpStringFields d) :
    occursInStr (htmlEscape s) (GenerateMarkdownReport d) = true := by
  rcases List.mem_append.mp hs with h4 | h5
  · rcases List.mem_append.mp h4 with h3 | hext
    · rcases List.mem_append.mp h3 with h2 | hcommit
      · rcases List.mem_append.mp h2 with hhead | hbadge
        · rcases List.mem_cons.mp hhead with rfl | hh
          · exact chunk_in_render (by simp [reportChunks])
          · rcases List.mem_cons.mp hh with rfl | hh2
            · exact chunk_in_render (by simp [reportChunks])
            · exact absurd hh2 (List.not_mem_nil s)
        · by_cases hb : d.BadgeURL = ""
          · rw [if_pos hb] at hbadge
            exact absurd hbadge (List.not_mem_nil s)
          · rw [if_neg hb] at hbadge
            have hseq := List.mem_singleton.mp hbadge
            subst hseq
            have hx : occursInStr (htmlEscape d.BadgeURL) (badgeBlock d) = true := by
              simp only [badgeBlock, if_neg hb]
              exact occursInStr_extR
                (occursInStr_extL
                  (occursInStr_extR (occursInStr_right _ "![ZenWatch Stats](") ")")
                  "\n") "\n"
            exact piece_in_render hx (by simp [reportChunks])
      · rcases List.mem_cons.mp hcommit with rfl | hc1
        · exact chunk_in_render (by simp [reportChunks])
        · rcases List.mem_cons.mp hc1 with rfl | hc2
          · exact chunk_in_render (by simp [reportChunks])
          · rcases List.mem_cons.mp hc2 with rfl | hc3
            · exact chunk_in_render (by simp [reportChunks])
            · rcases List.mem_cons.mp hc3 with rfl | hc4
              · exact chunk_in_render (by simp [reportChunks])
              · rcases List.mem_cons.mp hc4 with rfl | hc5
                · exact chunk_in_render (by simp [reportChunks])
                · exact absurd hc5 (List.not_mem_nil s)
    · obtain ⟨p, hp, hps⟩ := List.mem_map.mp hext
      subst hps
      have hx : occursInStr (htmlEscape p.1) (fileTypeRow p) = true := by
        unfold fileTypeRow
        exact occursInStr_extR (occursInStr_extR
          (occursInStr_extR (occursInStr_right _ "| ") " | ") _) " |\n"
      exact piece_in_render
        (occursInStr_strConcat_of_mem_piece (List.mem_map_of_mem fileTypeRow hp) hx)
        (by simp [reportChunks])
  · by_cases ho : 0 < d.Stats.FunctionsOverThreshold
    · rw [if_pos ho] at h5
      obtain ⟨cs, hcs, hmem⟩ := mem_concatMap.mp h5
      have hrowmem : occursInStr (complexityRow cs) (complexitySection d) = true := by
        simp only [complexitySection, if_pos ho]
        exact occursInStr_extR
          (occursInStr_extL
            (occursInStr_strConcat_of_mem (List.mem_map_of_mem complexityRow hcs))
            complexityTableHeader) "\n"
      have hfield : occursInStr (htmlEscape s) (complexityRow cs) = true := by
        unfold complexityRow
        rcases List.mem_cons.mp hmem with rfl | hm1
        · exact occursInStr_extR (occursInStr_extR (occursInStr_extR
            (occursInStr_extR (occursInStr_extR (occursInStr_extR
              (occursInStr_extR (occursInStr_right _ _) _) _) _) _) _) _) _
        · rcases List.mem_cons.mp hm1 with rfl | hm2
          · exact occursInStr_extR (occursInStr_extR (occursInStr_extR
              (occursInStr_extR (occursInStr_extR
                (occursInStr_right _ _) _) _) _) _) _
          · rcases List.mem_cons.mp hm2 with rfl | hm3
            · exact occursInStr_extR (occursInStr_right _ _) _
            · exact absurd hm3 (List.not_mem_nil s)
      exact section_in_render (occursInStr_trans hfield hrowmem)
    · rw [if_neg ho] at h5
      exact absurd h5 (List.not_mem_nil s)

/- ===================== claim C6 ===================== -/

set_option maxRecDepth 16384 in
/-- C6 counterexample: for a ReportData whose BadgeURL is the non-empty
string detailed below containing angle brackets, the badge URL does not
appear verbatim anywhere in the rendered report (html/template escapes
it), refuting the claim's verbatim clause as universally stated. -/
theorem C6_counterexample :
    reportBadBadge.BadgeURL ≠ ""
    ∧ occursInStr reportBadBadge.BadgeURL (GenerateMarkdownReport reportBadBadge)
        = false := by
  constructor
  · decide
  · decide

/-- C6 (amended): the badge image line is emitted exactly when BadgeURL is
non-empty (the badge conditional renders the empty string when BadgeURL is
empty, and a non-empty block otherwise), and when BadgeURL is non-empty the
badge image line carrying the HTML-escaped badge URL appears in the
report - the escaped URL being the URL itself verbatim whenever the URL
contains no HTML-special character and no NUL. -/
theorem C6_badge_amended (d : ReportData) :
    (d.BadgeURL = "" ↔ badgeBlock d = "")
    ∧ (d.BadgeURL ≠ "" →
        occursInStr ("![ZenWatch Stats](" ++ htmlEscape d.BadgeURL ++ ")")
          (GenerateMarkdownReport d) = true)
    ∧ ((∀ c ∈ d.BadgeURL.data, c ∉ htmlSpecialChars ∧ c ≠ '\x00') →
        htmlEscape d.BadgeURL = d.BadgeURL) := by
  refine ⟨⟨fun h => by simp [badgeBlock, h], fun h => ?_⟩,
    fun hne => ?_, fun h => htmlEscape_id h⟩
  · by_contra hne
    rw [badgeBlock, if_neg hne] at h
    have h2 := congrArg String.data h
    rw [strData_append, strData_append, strData_empty] at h2
    have h3 := (List.append_eq_nil.mp (List.append_eq_nil.mp h2).1).1
    exact absurd h3 (by decide)
  · have hx : occursInStr ("![ZenWatch Stats](" ++ htmlEscape d.BadgeURL ++ ")")
        (badgeBlock d) = true := by
      rw [badgeBlock, if_neg hne]
      exact occursInStr_extR (occursInStr_extL
        (occursInStr_self ("![ZenWatch Stats](" ++ htmlEscape d.BadgeURL ++ ")"))
        "\n") "\n"
    exact piece_in_render hx (by simp [reportChunks])

theorem C6_witness :
    (reportSampleBadge.BadgeURL = "" ↔ badgeBlock reportSampleBadge = "")
    ∧ occursInStr
        ("![ZenWatch Stats](" ++ htmlEscape reportSampleBadge.BadgeURL ++ ")")
        (GenerateMarkdownReport reportSampleBadge) = true
    ∧ htmlEscape reportSampleBadge.BadgeURL = reportSampleBadge.BadgeURL :=
  have h := C6_badge_amended reportSampleBadge
  ⟨h.1, h.2.1 (by decide), h.2.2 (by decide)⟩

/- ===================== claim C7 ===================== -/

/-- C7: when FunctionsOverThreshold is zero the rendered report is the main
part followed by exactly the fixed sentence (with the threshold
substituted) - no complexity table is emitted - and the sentence occurs in
the report; when it is positive the rendered report carries the table
heading followed by one row per ComplexityStat in input order (complexity,
function name, file:line, package), each row occurring in the report. -/
theorem C7_complexity_section (d : ReportData) :
    (d.Stats.FunctionsOverThreshold = 0 →
      GenerateMarkdownReport d =
          reportMain d ++
            ("No functions found with cyclomatic complexity greater than " ++
              toString d.ComplexityThreshold ++ ".\n") ++ "\n"
        ∧ occursInStr
            ("No functions found with cyclomatic complexity greater than " ++
              toString d.ComplexityThreshold ++ ".")
            (GenerateMarkdownReport d) = true)
    ∧ (0 < d.Stats.FunctionsOverThreshold →
      GenerateMarkdownReport d =
          reportMain d ++
            (complexityTableHeader ++
              strConcat (d.Stats.ComplexityStats.map complexityRow) ++ "\n") ++ "\n"
        ∧ ∀ cs ∈ d.Stats.ComplexityStats,
            occursInStr (complexityRow cs) (GenerateMarkdownReport d) = true) := by
  constructor
  · intro h0
    have hz : ¬ (0 < d.Stats.FunctionsOverThreshold) := by
      rw [h0]
      exact lt_irrefl 0
    have hsec : complexitySection d =
        "No functions found with cyclomatic complexity greater than " ++
          toString d.ComplexityThreshold ++ ".\n" := by
      rw [complexitySection, if_neg hz]
    have hdot : (".\n" : String) = "." ++ "\n" := by decide
    have hsent : complexitySection d =
        ("No functions found with cyclomatic complexity greater than " ++
          toString d.ComplexityThreshold ++ ".") ++ "\n" := by
      rw [hsec, hdot, ← strAppend_assoc]
    constructor
    · show reportMain d ++ complexitySection d ++ "\n" = _
      rw [hsec]
    · refine section_in_render ?_
      rw [hsent]
      exact occursInStr_left _ "\n"
  · intro hpos
    have hsec : complexitySection d =
        complexityTableHeader ++
          strConcat (d.Stats.ComplexityStats.map complexityRow) ++ "\n" := by
      rw [complexitySection, if_pos hpos]
    constructor
    · show reportMain d ++ complexitySection d ++ "\n" = _
      rw [hsec]
    · intro cs hcs
      refine section_in_render ?_
      rw [hsec]
      exact occursInStr_extR
        (occursInStr_extL
          (occursInStr_strConcat_of_mem (List.mem_map_of_mem complexityRow hcs))
          complexityTableHeader) "\n"

theorem C7_witness :
    (GenerateMarkdownReport reportZero =
        reportMain reportZero ++
          ("No functions found with cyclomatic complexity greater than " ++
            toString reportZero.ComplexityThreshold ++ ".\n") ++ "\n")
    ∧ occursInStr
        ("No functions found with cyclomatic complexity greater than " ++
          toString reportZero.ComplexityThreshold ++ ".")
        (GenerateMarkdownReport reportZero) = true
    ∧ occursInStr (complexityRow complexFuncStat)
        (GenerateMarkdownReport reportSampleNoBadge) = true :=
  have h1 := (C7_complexity_section reportZero).1 rfl
  have h2 := (C7_complexity_section reportSampleNoBadge).2 (by decide)
  ⟨h1.1, h1.2, h2.2 complexFuncStat (by decide)⟩

/- ===================== claim C10 ===================== -/

/-- C10: the renderer goes through html/template, so the commit author line
is rendered with the stray template `<` as `&lt;` around the escaped author
and email, and every interpolated ReportData string field appears
HTML-escaped in the report: whenever a field contains one of the special
characters, the corresponding entity occurs in its escape and in the
report, and the escaped text never contains a raw angle bracket or
quote. -/
theorem C10_html_escaping (d : ReportData) :
    occursInStr
        ("- **Author:** " ++ htmlEscape d.Commit.Author ++ " &lt;" ++
          htmlEscape d.Commit.Email ++ ">")
        (GenerateMarkdownReport d) = true
    ∧ ∀ s ∈ interpStringFields d,
        occursInStr (htmlEscape s) (GenerateMarkdownReport d) = true
        ∧ (∀ c ∈ s.data, c ∈ htmlSpecialChars →
            occursInStr (String.mk (htmlEscapeChar c)) (htmlEscape s) = true
            ∧ occursInStr (String.mk (htmlEscapeChar c))
                (GenerateMarkdownReport d) = true)
        ∧ ∀ c ∈ (htmlEscape s).data,
            c ≠ '<' ∧ c ≠ '>' ∧ c ≠ '\x22' ∧ c ≠ '\x27' := by
  constructor
  · have hsplit : reportChunks d =
        ["\n# ZenWatch Analysis Report\n\n**Repository:** ",
         htmlEscape d.RepoURL,
         "\n**Analyzed At:** ",
         htmlEscape d.ReportDate,
         "\n\n",
         badgeBlock d,
         "\n\n## Latest Commit Analyzed\n- **Hash:** ",
         htmlEscape d.Commit.Hash,
         "\n"] ++
        ["- **Author:** ", htmlEscape d.Commit.Author, " &lt;",
         htmlEscape d.Commit.Email, ">"] ++
        ["\n- **Date:** ",
         htmlEscape d.Commit.Date,
         "\n- **Message:** ",
         htmlEscape d.Commit.Message,
         "\n\n## Code Statistics\n- **Total Lines Added:** ",
         toString d.Stats.TotalLinesAdded,
         "\n- **Total Lines Deleted:** ",
         toString d.Stats.TotalLinesDeleted,
         "\n  *Note: Line counts are overall for the commit. Per-file line counts were not available with current git analysis settings.*\n\n### File Type Distribution\n| Extension | Count |\n|-----------|-------|\n",
         strConcat (d.Stats.FileStats.map fileTypeRow),
         "\n\n## Cyclomatic Complexity Analysis (Threshold > ",
         toString d.ComplexityThreshold,
         ")\n- **Average Complexity (of functions over threshold):** ",
         htmlEscape d.Stats.AverageComplexityFmt,
         "\n- **Functions Over Threshold:** ",
         toString d.Stats.FunctionsOverThreshold,
         "\n\n"] := rfl
    have hmid : strConcat
        ["- **Author:** ", htmlEscape d.Commit.Author, " &lt;",
         htmlEscape d.Commit.Email, ">"] =
        "- **Author:** " ++ htmlEscape d.Commit.Author ++ " &lt;" ++
          htmlEscape d.Commit.Email ++ ">" := by
      apply strExt
      simp [strConcat, strData_append, strData_empty, List.append_assoc]
    have h1 : occursInStr
        (strConcat ["- **Author:** ", htmlEscape d.Commit.Author, " &lt;",
          htmlEscape d.Commit.Email, ">"])
        (reportMain d) = true := by
      unfold reportMain
      rw [hsplit]
      exact occursInStr_strConcat_mid _ _ _
    rw [← hmid]
    exact occursInStr_extR (occursInStr_extR h1 (complexitySection d)) "\n"
  · intro s hs
    have hfield := field_in_render hs
    exact ⟨hfield,
      fun c hc _ =>
        ⟨entity_in_escape hc, occursInStr_trans (entity_in_escape hc) hfield⟩,
      htmlEscape_no_raw s⟩

theorem C10_witness :
    occursInStr
        ("- **Author:** " ++ htmlEscape reportEscape.Commit.Author ++ " &lt;" ++
          htmlEscape reportEscape.Commit.Email ++ ">")
        (GenerateMarkdownReport reportEscape) = true
    ∧ occursInStr (htmlEscape reportEscape.Commit.Author)
        (GenerateMarkdownReport reportEscape) = true
    ∧ occursInStr (String.mk (htmlEscapeChar '<'))
        (htmlEscape reportEscape.Commit.Author) = true :=
  have h := C10_html_escaping reportEscape
  have hf := h.2 reportEscape.Commit.Author (by decide)
  ⟨h.1, hf.1, (hf.2.1 '<' (by decide) (by decide)).1⟩

end ZenWatch

